/-
Verification of the global-identifier assignment and registry subsystem of
import_issues.py (class GlobalIDAssigner).

Python strings are modelled as lists of characters (Str := List Char); the
in-memory registry dict (insertion-ordered, as in Python 3.7+) is modelled as
an association list in insertion order, where assignment to an existing key
replaces the stored record in place and assignment to a fresh key appends.
File I/O (loading and saving the JSON registry) is not modelled; instead the
initial registry contents are a parameter, and operations that trigger a save
report a Bool flag.
-/
import Mathlib

set_option maxHeartbeats 1000000

/-- Python strings, modelled as lists of characters. -/
abbrev Str := List Char

/-- Conversion from Lean string literals to the model's string type. -/
def str (s : String) : Str := s.data

/-- Python str.lower (ASCII, as used by the script's label/repo data). -/
def strLower (s : Str) : Str := s.map Char.toLower

/-- Python str.strip: drop leading and trailing whitespace. -/
def strTrim (s : Str) : Str :=
  ((s.dropWhile Char.isWhitespace).reverse.dropWhile Char.isWhitespace).reverse

/-- Python `needle in hay` on strings: substring test. -/
def substrB : Str → Str → Bool
  | n, [] => n.isEmpty
  | n, c :: t => n.isPrefixOf (c :: t) || substrB n t

/-- Python s.split(c): split on every occurrence of a separator character. -/
def splitOnChar (c : Char) : Str → List Str
  | [] => [[]]
  | x :: xs =>
    match splitOnChar c xs with
    | [] => [[]]
    | h :: t => if x = c then [] :: h :: t else (x :: h) :: t

/-- Python ' '.join(labels). -/
def joinSpace (ls : List Str) : Str := List.intercalate [' '] ls

/-- The character for a single decimal digit. -/
def digitChar (n : Nat) : Char := Char.ofNat (48 + n)

/-- Decimal digits of a natural number, most significant first (fuel-driven
structural recursion so the kernel can evaluate it). -/
def natDigitsAux : Nat → Nat → Str
  | 0, _ => []
  | fuel + 1, n =>
    if n < 10 then [digitChar n] else natDigitsAux fuel (n / 10) ++ [digitChar (n % 10)]

/-- Decimal rendering of a natural number. -/
def natDigits (n : Nat) : Str := natDigitsAux (n + 1) n

/-- Python format spec 03d: decimal digits left-padded with zeros to width
at least 3. -/
def pad3 (n : Nat) : Str :=
  let d := natDigits n
  List.replicate (3 - d.length) '0' ++ d

/-- The Issue dataclass of import_issues.py. -/
structure Issue where
  number : Int
  title : Str
  body : Str
  labels : List Str
  milestone : Option Str
  epic : Option Str
  estimated_time : Option Str
  is_epic : Bool := false
  dependencies : List Str := []
  global_id : Option Str := none
deriving DecidableEq

/-- One registry entry, as built by GlobalIDAssigner.assign_id. -/
structure RegRecord where
  global_id : Str
  project : Str
  component : Str
  local_number : Int
  github_repo : Str
  github_number : Option Int
  title : Str
  labels : List Str
  milestone : Option Str
  status : Str
deriving DecidableEq

/-- The in-memory registry: the Python dict global_id -> record, in insertion
order. -/
abbrev Registry := List (Str × RegRecord)

/-- GlobalIDAssigner.PROJECT_CODES, in source order. -/
def PROJECT_CODES : List (Str × Str) :=
  [ (str "space-colony-modelica-core", str "MODELICA"),
    (str "modelica-rust-ffi", str "FFI"),
    (str "modelica-rust-modbus-server", str "MODBUS"),
    (str "godot-modelica-rust-integration", str "GODOT"),
    (str "v-ics-le", str "VICS"),
    (str "V-ICS", str "VICS"),
    (str "lunaco-sim", str "LUNACO"),
    (str "godot-colony-sim", str "COLONY"),
    (str "modelica-godot-integration", str "CORE"),
    (str "colony-sim-framework", str "COLONY"),
    (str "mars-irrigation", str "IRRIGATION") ]

/-- GlobalIDAssigner.COMPONENT_MAP, in source order. -/
def COMPONENT_MAP : List (Str × Str) :=
  [ (str "setup", str "ENV"),
    (str "environment", str "ENV"),
    (str "installation", str "ENV"),
    (str "poc", str "POC"),
    (str "proof-of-concept", str "POC"),
    (str "validation", str "POC"),
    (str "build", str "BUILD"),
    (str "automation", str "BUILD"),
    (str "compilation", str "BUILD"),
    (str "ci", str "BUILD"),
    (str "modeling", str "MODEL"),
    (str "model", str "MODEL"),
    (str "physics", str "MODEL"),
    (str "simulation", str "MODEL"),
    (str "rust", str "RUST"),
    (str "ffi", str "FFI"),
    (str "bindings", str "FFI"),
    (str "safety", str "RUST"),
    (str "concurrency", str "RUST"),
    (str "modbus", str "PROTO"),
    (str "protocol", str "PROTO"),
    (str "networking", str "NET"),
    (str "tcp", str "NET"),
    (str "integration", str "INTEG"),
    (str "godot", str "GODOT"),
    (str "api", str "API"),
    (str "config", str "CONFIG"),
    (str "configuration", str "CONFIG"),
    (str "deployment", str "DEPLOY"),
    (str "docker", str "DEPLOY"),
    (str "performance", str "PERF"),
    (str "optimization", str "PERF"),
    (str "visualization", str "VIZ"),
    (str "ui", str "VIZ"),
    (str "frontend", str "VIZ"),
    (str "backend", str "BACKEND"),
    (str "server", str "BACKEND"),
    (str "power-systems", str "POWER"),
    (str "electrical", str "POWER"),
    (str "life-support", str "LIFE"),
    (str "eclss", str "LIFE"),
    (str "thermal", str "THERMAL"),
    (str "heating", str "THERMAL"),
    (str "security", str "SEC"),
    (str "attacks", str "SEC"),
    (str "plc", str "PLC"),
    (str "testing", str "TEST"),
    (str "test", str "TEST"),
    (str "documentation", str "DOC"),
    (str "docs", str "DOC"),
    (str "data", str "DATA") ]

/-- Exact-key lookup in an ordered association table (Python dict lookup;
keys of both tables are distinct, so first match equals dict behavior). -/
def lookupTable (tbl : List (Str × Str)) (k : Str) : Option Str :=
  (tbl.find? (fun kv => kv.1 == k)).map (·.2)

/-- GlobalIDAssigner._get_project_code. -/
def getProjectCode (repo_name : Str) : Str :=
  let clean_name :=
    if repo_name.contains '/' then (splitOnChar '/' repo_name).getLastD repo_name
    else repo_name
  match lookupTable PROJECT_CODES clean_name with
  | some code => code
  | none =>
    match PROJECT_CODES.findSome?
        (fun kv => if substrB kv.1 clean_name || substrB clean_name kv.1
                   then some kv.2 else none) with
    | some code => code
    | none => str "MISC"

/-- The fallback chain of _get_component_code over the joined label text. -/
def componentFallback (label_text : Str) : Str :=
  if substrB (str "rust") label_text || substrB (str "ffi") label_text then str "RUST"
  else if substrB (str "modbus") label_text || substrB (str "protocol") label_text then str "PROTO"
  else if substrB (str "godot") label_text then str "GODOT"
  else if substrB (str "model") label_text || substrB (str "physics") label_text then str "MODEL"
  else if substrB (str "config") label_text then str "CONFIG"
  else str "MISC"

/-- GlobalIDAssigner._get_component_code. -/
def getComponentCode (labels : List Str) : Str :=
  match labels.findSome? (fun label => lookupTable COMPONENT_MAP (strTrim (strLower label))) with
  | some code => code
  | none => componentFallback (strLower (joinSpace labels))

/-- GlobalIDAssigner._count_existing: count of registry keys that start with
the given text, literal string-prefix match (str.startswith). -/
def countExisting (registry : Registry) (pre : Str) : Nat :=
  registry.countP (fun kv => pre.isPrefixOf kv.1)

/-- Python dict assignment d[k] = v: replace in place when the key is
present, append otherwise. -/
def dictInsert (registry : Registry) (k : Str) (v : RegRecord) : Registry :=
  if registry.any (fun kv => kv.1 == k) then
    registry.map (fun kv => if kv.1 == k then (k, v) else kv)
  else registry ++ [(k, v)]

/-- Python dict read d.get(k). -/
def lookupRec (registry : Registry) (k : Str) : Option RegRecord :=
  (registry.find? (fun kv => kv.1 == k)).map (·.2)

/-- The mutable state of a GlobalIDAssigner: repo_name, the project code
fixed at construction, and the registry contents. -/
structure Assigner where
  repo_name : Str
  project_code : Str
  registry : Registry
deriving DecidableEq

/-- GlobalIDAssigner.__init__ with the loaded registry contents as a
parameter (the constructor reads them from disk, or an empty dict when the
file is absent). -/
def mkAssigner (repo_name : Str) (loaded : Registry) : Assigner :=
  ⟨repo_name, getProjectCode repo_name, loaded⟩

/-- The constructor prints a warning exactly when the project code fell back
to MISC. -/
def miscWarningEmitted (a : Assigner) : Bool := a.project_code == str "MISC"

/-- GlobalIDAssigner.assign_id: returns the assigned global id and the
updated assigner state (the issue's global_id field is also set to the
returned id, line 241 of the source). -/
def assignId (a : Assigner) (issue : Issue) : Str × Assigner :=
  let component := getComponentCode issue.labels
  let pre := a.project_code ++ '-' :: component
  let next_num := countExisting a.registry pre + 1
  let global_id := pre ++ '-' :: pad3 next_num
  let record : RegRecord :=
    { global_id := global_id
      project := a.project_code
      component := component
      local_number := issue.number
      github_repo := a.repo_name
      github_number := none
      title := issue.title
      labels := issue.labels
      milestone := issue.milestone
      status := str "open" }
  (global_id, { a with registry := dictInsert a.registry global_id record })

/-- Sequential assignment over a batch of items (the run loop of
GitHubImporter.run, lines 300-302): returns the ids in order and the final
state. -/
def assignAll (a : Assigner) : List Issue → List Str × Assigner
  | [] => ([], a)
  | i :: is =>
    ((assignId a i).1 :: (assignAll (assignId a i).2 is).1,
     (assignAll (assignId a i).2 is).2)

/-- GlobalIDAssigner.update_github_number, acting on the registry; the Bool
reports whether _save_registry was triggered. When the id is absent the
method returns without doing anything. -/
def updateGithubNumber (registry : Registry) (global_id : Str) (github_number : Int) :
    Registry × Bool :=
  if registry.any (fun kv => kv.1 == global_id) then
    (registry.map
      (fun kv => if kv.1 == global_id
                 then (kv.1, { kv.2 with github_number := some github_number }) else kv),
     true)
  else (registry, false)

/- ### Definitions written from the specification's words, for refinement
comparisons. -/

/-- Modelled from the spec: label normalization, lowercase and trimmed. -/
def normalizeLabel (l : Str) : Str := strTrim (strLower l)

/-- Modelled from the spec: resolveComponentCode. Normalize each label, walk
the labels in their given order, return the component code of the first
label found in the static table; otherwise test the concatenated lowercase
label text against the fixed ordered substring heuristics; otherwise MISC. -/
def resolveComponentCodeSpec (labels : List Str) : Str :=
  match (labels.map normalizeLabel).findSome? (lookupTable COMPONENT_MAP) with
  | some code => code
  | none => componentFallback (strLower (joinSpace labels))

/-- Modelled from the spec: keep only the trailing path segment after any
owner/ prefix. -/
def trailingSegment (repoIdentifier : Str) : Str :=
  (splitOnChar '/' repoIdentifier).getLastD repoIdentifier

/-- Modelled from the spec: resolveProjectCode. Exact table match on the
trailing segment wins; otherwise the first table entry (in table iteration
order) whose key is a substring of the segment or of which the segment is a
substring; otherwise the MISC sentinel. -/
def resolveProjectCodeSpec (repoIdentifier : Str) : Str :=
  let segment := trailingSegment repoIdentifier
  match lookupTable PROJECT_CODES segment with
  | some code => code
  | none =>
    match PROJECT_CODES.findSome?
        (fun kv => if substrB kv.1 segment || substrB segment kv.1
                   then some kv.2 else none) with
    | some code => code
    | none => str "MISC"

/-- The error kinds named by the specification for registry mutations. -/
inductive RegError where
  | notFound
  | duplicateId
deriving DecidableEq

/-- Modelled from the spec: UpdateRemoteNumber fails with NotFound if the
global id is absent; otherwise sets the field and triggers persistence. -/
def updateRemoteNumberSpec (registry : Registry) (global_id : Str) (github_number : Int) :
    Except RegError (Registry × Bool) :=
  if registry.any (fun kv => kv.1 == global_id) then
    Except.ok
      (registry.map
        (fun kv => if kv.1 == global_id
                   then (kv.1, { kv.2 with github_number := some github_number }) else kv),
       true)
  else Except.error RegError.notFound

/- ### Derived notions used by the statements and proofs. -/

/-- The keys of the registry, in insertion order. -/
def keys (registry : Registry) : List Str := registry.map Prod.fst

/-- The id format of assign_id: project code, component code and padded
sequence number joined by dashes. -/
def mkId (p c : Str) (n : Nat) : Str := p ++ '-' :: c ++ '-' :: pad3 n

/-- Every component code _get_component_code can return. -/
def compRange : List Str :=
  [ str "ENV", str "POC", str "BUILD", str "MODEL", str "RUST", str "FFI",
    str "PROTO", str "NET", str "INTEG", str "GODOT", str "API", str "CONFIG",
    str "DEPLOY", str "PERF", str "VIZ", str "BACKEND", str "POWER", str "LIFE",
    str "THERMAL", str "SEC", str "PLC", str "TEST", str "DOC", str "DATA",
    str "MISC" ]

/-- Reading a digit string back as a number. -/
def valDigits (s : Str) : Nat := s.foldl (fun a c => a * 10 + (c.toNat - 48)) 0

/-- The invariant preserved by assign_id across one registry lifetime that
starts empty: keys are distinct, and every key is a well-formed id whose
sequence number does not exceed the current count of its own prefix. -/
def GoodKeys (p : Str) (reg : Registry) : Prop :=
  (keys reg).Nodup ∧
  ∀ k ∈ keys reg, ∃ c ∈ compRange, ∃ j, 1 ≤ j ∧
    j ≤ countExisting reg (p ++ '-' :: c) ∧ k = mkId p c j

/- ### Concrete sample data for scenario theorems and witnesses. -/

/-- A first backlog item with labels modbus, testing. -/
def issueModbus : Issue :=
  { number := 1, title := str "Modbus TCP server", body := str "",
    labels := [str "modbus", str "testing"], milestone := none, epic := none,
    estimated_time := none }

/-- A second backlog item with label protocol. -/
def issueProtocol : Issue :=
  { number := 2, title := str "Protocol framing", body := str "",
    labels := [str "protocol"], milestone := none, epic := none,
    estimated_time := none }

/-- A backlog item with no labels at all. -/
def issueNoLabels : Issue :=
  { number := 3, title := str "Untagged item", body := str "",
    labels := [], milestone := none, epic := none, estimated_time := none }

/-- A pre-existing registry record under key VICS-PROTO-002. -/
def recOld : RegRecord :=
  { global_id := str "VICS-PROTO-002", project := str "VICS",
    component := str "PROTO", local_number := 9, github_repo := str "v-ics-le",
    github_number := none, title := str "old record",
    labels := [str "protocol"], milestone := none, status := str "open" }

/-- A registry with a gap: it holds sequence number 002 but not 001. -/
def gapRegistry : Registry := [(str "VICS-PROTO-002", recOld)]

/-- A record whose key extends the text VICS-RUST without a token boundary. -/
def recRust2 : RegRecord :=
  { global_id := str "VICS-RUST2-001", project := str "VICS",
    component := str "RUST2", local_number := 4, github_repo := str "v-ics-le",
    github_number := none, title := str "rust2 record", labels := [],
    milestone := none, status := str "open" }

/- ### Decimal rendering: evaluation and injectivity. -/

theorem digitChar_toNat {n : Nat} (h : n < 10) : (digitChar n).toNat = 48 + n := by
  interval_cases n <;> decide

theorem natDigitsAux_foldl (fuel : Nat) : ∀ n acc, n < fuel →
    (natDigitsAux fuel n).foldl (fun a c => a * 10 + (c.toNat - 48)) acc
      = acc * 10 ^ (natDigitsAux fuel n).length + n := by
  induction fuel with
  | zero => intro n acc h; omega
  | succ f ih =>
    intro n acc h
    by_cases h10 : n < 10
    · simp only [natDigitsAux, if_pos h10, List.foldl_cons, List.foldl_nil,
        List.length_cons, List.length_nil, pow_one]
      rw [digitChar_toNat h10]; omega
    · have hdiv : n / 10 < f := by
        have h1 : n / 10 < n := Nat.div_lt_self (by omega) (by omega)
        omega
      simp only [natDigitsAux, if_neg h10, List.foldl_append, List.foldl_cons,
        List.foldl_nil, List.length_append, List.length_cons, List.length_nil]
      rw [ih (n / 10) acc hdiv, digitChar_toNat (Nat.mod_lt _ (by omega)), pow_succ]
      have hmod : 10 * (n / 10) + n % 10 = n := Nat.div_add_mod n 10
      have h48 : 48 + n % 10 - 48 = n % 10 := by omega
      rw [h48]
      calc (acc * 10 ^ (natDigitsAux f (n / 10)).length + n / 10) * 10 + n % 10
          = acc * (10 ^ (natDigitsAux f (n / 10)).length * 10) + (10 * (n / 10) + n % 10) := by
            ring
        _ = acc * (10 ^ (natDigitsAux f (n / 10)).length * 10) + n := by rw [hmod]

theorem valDigits_natDigits (n : Nat) : valDigits (natDigits n) = n := by
  have := natDigitsAux_foldl (n + 1) n 0 (Nat.lt_succ_self n)
  simpa [valDigits, natDigits] using this

theorem foldl_zeros (k : Nat) :
    (List.replicate k '0').foldl (fun a c => a * 10 + (c.toNat - 48)) 0 = 0 := by
  induction k with
  | zero => rfl
  | succ m ih => simpa [List.replicate_succ] using ih

theorem valDigits_pad3 (n : Nat) : valDigits (pad3 n) = n := by
  have hz := foldl_zeros (3 - (natDigits n).length)
  have := natDigitsAux_foldl (n + 1) n 0 (Nat.lt_succ_self n)
  simp only [valDigits, pad3, List.foldl_append, hz]
  simpa [natDigits] using this

theorem pad3_injective {a b : Nat} (h : pad3 a = pad3 b) : a = b := by
  have := congrArg valDigits h
  rwa [valDigits_pad3, valDigits_pad3] at this

/- ### Dash-separated id strings: splitting and injectivity. -/

theorem dashSplit : ∀ (a b x y : Str), '-' ∉ a → '-' ∉ b →
    a ++ '-' :: x = b ++ '-' :: y → a = b ∧ x = y := by
  intro a
  induction a with
  | nil =>
    intro b x y _ hb h
    cases b with
    | nil => simpa using h
    | cons c t =>
      simp only [List.nil_append, List.cons_append, List.cons.injEq] at h
      exact absurd (h.1 ▸ List.mem_cons_self c t) hb
  | cons c t ih =>
    intro b x y ha hb h
    cases b with
    | nil =>
      simp only [List.cons_append, List.nil_append, List.cons.injEq] at h
      exact absurd (h.1 ▸ List.mem_cons_self c t) ha
    | cons c' t' =>
      simp only [List.cons_append, List.cons.injEq] at h
      obtain ⟨rfl, h2⟩ := h
      have := ih t' x y (fun hm => ha (List.mem_cons_of_mem _ hm))
        (fun hm => hb (List.mem_cons_of_mem _ hm)) h2
      exact ⟨by rw [this.1], this.2⟩

theorem dashPrefixCancel : ∀ (a b r : Str), '-' ∉ a → a <+: b ++ '-' :: r → a <+: b := by
  intro a
  induction a with
  | nil => intro b r _ _; exact List.nil_prefix
  | cons c t ih =>
    intro b r ha h
    cases b with
    | nil =>
      rw [List.nil_append, List.cons_prefix_cons] at h
      exact absurd (h.1 ▸ List.mem_cons_self c t) ha
    | cons c' t' =>
      rw [List.cons_append, List.cons_prefix_cons] at h
      exact List.cons_prefix_cons.mpr
        ⟨h.1, ih t' r (fun hm => ha (List.mem_cons_of_mem _ hm)) h.2⟩

theorem dropCommonAppendLeft {xs ys zs : Str} (h : xs ++ ys <+: xs ++ zs) : ys <+: zs := by
  obtain ⟨t, ht⟩ := h
  rw [List.append_assoc] at ht
  exact ⟨t, List.append_cancel_left ht⟩

theorem mkId_eq_pre (p c : Str) (n : Nat) :
    (p ++ '-' :: c) ++ '-' :: pad3 n = mkId p c n := by
  simp [mkId]

theorem isPrefixOf_mkId_self (p c : Str) (n : Nat) :
    (p ++ '-' :: c).isPrefixOf (mkId p c n) = true := by
  rw [ List.isPrefixOf_iff_prefix, ← mkId_eq_pre]
  exact List.prefix_append _ _

theorem mkId_inj {p c₁ c₂ : Str} {n₁ n₂ : Nat} (h₁ : '-' ∉ c₁) (h₂ : '-' ∉ c₂)
    (h : mkId p c₁ n₁ = mkId p c₂ n₂) : c₁ = c₂ ∧ n₁ = n₂ := by
  simp only [mkId, List.append_assoc, List.cons_append] at h
  have h' := List.append_cancel_left h
  simp only [List.cons.injEq, true_and] at h'
  have := dashSplit c₁ c₂ (pad3 n₁) (pad3 n₂) h₁ h₂ h'
  exact ⟨this.1, pad3_injective this.2⟩

theorem isPrefixOf_mkId {p c₁ c₂ : Str} {n : Nat} (h₁ : '-' ∉ c₁)
    (h : (p ++ '-' :: c₁).isPrefixOf (mkId p c₂ n) = true) : c₁ <+: c₂ := by
  rw [ List.isPrefixOf_iff_prefix] at h
  simp only [mkId, List.append_assoc, List.cons_append] at h
  have h' := @dropCommonAppendLeft p ('-' :: c₁) ('-' :: (c₂ ++ '-' :: pad3 n)) h
  rw [List.cons_prefix_cons] at h'
  exact dashPrefixCancel c₁ c₂ (pad3 n) h₁ h'.2

/- ### The range of _get_component_code. -/

theorem compRange_dashFree : ∀ c ∈ compRange, '-' ∉ c := by decide

theorem compRange_prefixFree :
    ∀ c₁ ∈ compRange, ∀ c₂ ∈ compRange, c₁ <+: c₂ → c₁ = c₂ := by decide

theorem lookupTable_mem {tbl : List (Str × Str)} {k v : Str}
    (h : lookupTable tbl k = some v) : ∃ kv ∈ tbl, kv.2 = v := by
  unfold lookupTable at h
  cases hf : tbl.find? (fun kv => kv.1 == k) with
  | none => rw [hf] at h; simp at h
  | some kv =>
    rw [hf] at h
    simp only [Option.map_some', Option.some.injEq] at h
    exact ⟨kv, List.mem_of_find?_eq_some hf, h⟩

theorem componentFallback_mem (t : Str) : componentFallback t ∈ compRange := by
  unfold componentFallback
  split
  · decide
  · split
    · decide
    · split
      · decide
      · split
        · decide
        · split <;> decide

theorem getComponentCode_mem (labels : List Str) : getComponentCode labels ∈ compRange := by
  unfold getComponentCode
  cases hf : labels.findSome?
      (fun label => lookupTable COMPONENT_MAP (strTrim (strLower label))) with
  | none => exact componentFallback_mem _
  | some code =>
    obtain ⟨l₁, a, l₂, _, hsome, _⟩ := List.findSome?_eq_some_iff.mp hf
    obtain ⟨kv, hmem, hv⟩ := lookupTable_mem hsome
    have : ∀ kv ∈ COMPONENT_MAP, kv.2 ∈ compRange := by decide
    exact hv ▸ this kv hmem

/- ### Registry lemmas. -/

theorem countExisting_eq_keys (reg : Registry) (pre : Str) :
    countExisting reg pre = (keys reg).countP (fun k => pre.isPrefixOf k) := by
  rw [keys, List.countP_map]; rfl

theorem dictInsert_not_mem {reg : Registry} {k : Str} {v : RegRecord}
    (h : k ∉ keys reg) : dictInsert reg k v = reg ++ [(k, v)] := by
  have hany : reg.any (fun kv => kv.1 == k) = false := by
    rw [List.any_eq_false]
    intro kv hkv
    simp only [beq_iff_eq]
    intro he
    exact h (he ▸ List.mem_map_of_mem Prod.fst hkv)
  simp [dictInsert, hany]

theorem keys_append_single (reg : Registry) (k : Str) (v : RegRecord) :
    keys (reg ++ [(k, v)]) = keys reg ++ [k] := by
  simp [keys]

theorem goodKeys_nil (p : Str) : GoodKeys p [] := by
  constructor
  · exact List.nodup_nil
  · intro k hk; simp [keys] at hk

theorem isPrefixOf_mkId_iff {p c c' : Str} {n : Nat} (hc : c ∈ compRange)
    (hc' : c' ∈ compRange) :
    (p ++ '-' :: c').isPrefixOf (mkId p c n) = true ↔ c' = c := by
  constructor
  · intro h
    exact compRange_prefixFree c' hc' c hc (isPrefixOf_mkId (compRange_dashFree c' hc') h)
  · intro h; subst h; exact isPrefixOf_mkId_self p c' n

theorem newId_not_mem {p : Str} {reg : Registry} {c : Str} (hc : c ∈ compRange)
    (hg : GoodKeys p reg) :
    mkId p c (countExisting reg (p ++ '-' :: c) + 1) ∉ keys reg := by
  intro hmem
  obtain ⟨c', hc', j, hj1, hj2, hk⟩ := hg.2 _ hmem
  obtain ⟨hcc, hnn⟩ :=
    mkId_inj (compRange_dashFree c hc) (compRange_dashFree c' hc') hk
  subst hcc
  omega

theorem countExisting_append_newId {p : Str} {reg : Registry} {c c' : Str} {n : Nat}
    {v : RegRecord} (hc : c ∈ compRange) (hc' : c' ∈ compRange) :
    countExisting (reg ++ [(mkId p c n, v)]) (p ++ '-' :: c')
      = countExisting reg (p ++ '-' :: c') + (if c' = c then 1 else 0) := by
  unfold countExisting
  rw [List.countP_append, List.countP_cons, List.countP_nil]
  by_cases h : c' = c
  · simp [h, isPrefixOf_mkId_self]
  · have : (p ++ '-' :: c').isPrefixOf (mkId p c n) = false := by
      rw [Bool.eq_false_iff]
      intro habs
      exact h ((isPrefixOf_mkId_iff hc hc').mp habs)
    simp [h, this]

theorem goodKeys_step {p : Str} {reg : Registry} {c : Str} {v : RegRecord}
    (hc : c ∈ compRange) (hg : GoodKeys p reg) :
    GoodKeys p (reg ++ [(mkId p c (countExisting reg (p ++ '-' :: c) + 1), v)]) := by
  set m := countExisting reg (p ++ '-' :: c) with hm
  constructor
  · rw [keys_append_single]
    exact List.Nodup.append hg.1 (List.nodup_singleton _)
      (fun k hk1 hk2 => by
        rw [List.mem_singleton] at hk2
        exact newId_not_mem hc hg (hk2 ▸ hk1))
  · intro k hk
    rw [keys_append_single, List.mem_append, List.mem_singleton] at hk
    cases hk with
    | inl hold =>
      obtain ⟨c', hc', j, hj1, hj2, hkid⟩ := hg.2 k hold
      refine ⟨c', hc', j, hj1, ?_, hkid⟩
      rw [countExisting_append_newId hc hc']
      omega
    | inr hnew =>
      refine ⟨c, hc, m + 1, by omega, ?_, hnew⟩
      rw [countExisting_append_newId hc hc]
      simp

/- ### assign_id and the batch loop. -/

theorem assignId_fst (a : Assigner) (issue : Issue) :
    (assignId a issue).1 = mkId a.project_code (getComponentCode issue.labels)
      (countExisting a.registry
        (a.project_code ++ '-' :: getComponentCode issue.labels) + 1) := rfl

theorem assignId_registry_eq (a : Assigner) (issue : Issue)
    (h : (assignId a issue).1 ∉ keys a.registry) :
    ∃ v, (assignId a issue).2.registry = a.registry ++ [((assignId a issue).1, v)] :=
  ⟨_, dictInsert_not_mem h⟩

theorem assignId_project_code (a : Assigner) (issue : Issue) :
    (assignId a issue).2.project_code = a.project_code := rfl

theorem assignAll_registry : ∀ (issues : List Issue) (a : Assigner),
    GoodKeys a.project_code a.registry →
    keys (assignAll a issues).2.registry = keys a.registry ++ (assignAll a issues).1
    ∧ GoodKeys a.project_code (assignAll a issues).2.registry
    ∧ (assignAll a issues).2.project_code = a.project_code := by
  intro issues
  induction issues with
  | nil => intro a hg; exact ⟨by simp [assignAll], hg, rfl⟩
  | cons i is ih =>
    intro a hg
    have hcm := getComponentCode_mem i.labels
    have hfresh : (assignId a i).1 ∉ keys a.registry := by
      rw [assignId_fst]; exact newId_not_mem hcm hg
    obtain ⟨v, hreg⟩ := assignId_registry_eq a i hfresh
    have hpc := assignId_project_code a i
    have hg' : GoodKeys (assignId a i).2.project_code (assignId a i).2.registry := by
      rw [hpc, hreg, assignId_fst]
      exact goodKeys_step hcm hg
    obtain ⟨hk, hgg, hpp⟩ := ih (assignId a i).2 hg'
    refine ⟨?_, ?_, ?_⟩
    · show keys (assignAll (assignId a i).2 is).2.registry
        = keys a.registry ++ (assignId a i).1 :: (assignAll (assignId a i).2 is).1
      rw [hk, hreg, keys_append_single, List.append_assoc, List.singleton_append]
    · show GoodKeys a.project_code (assignAll (assignId a i).2 is).2.registry
      rw [← hpc]; exact hgg
    · show (assignAll (assignId a i).2 is).2.project_code = a.project_code
      rw [hpp, hpc]

theorem assignAll_same_comp : ∀ (issues : List Issue) (a : Assigner) (c : Str) (m : Nat),
    c ∈ compRange →
    (∀ i ∈ issues, getComponentCode i.labels = c) →
    keys a.registry = (List.range m).map (fun j => mkId a.project_code c (j + 1)) →
    (assignAll a issues).1
      = (List.range issues.length).map (fun k => mkId a.project_code c (m + k + 1)) := by
  intro issues
  induction issues with
  | nil => intro a c m _ _ _; simp [assignAll]
  | cons i is ih =>
    intro a c m hc hall hkeys
    have hcomp : getComponentCode i.labels = c := hall i (List.mem_cons_self i is)
    have hcnt : countExisting a.registry (a.project_code ++ '-' :: c) = m := by
      rw [countExisting_eq_keys, hkeys, List.countP_map]
      have : ∀ j ∈ List.range m,
          ((fun k => (a.project_code ++ '-' :: c).isPrefixOf k)
            ∘ fun j => mkId a.project_code c (j + 1)) j = true := by
        intro j _
        exact isPrefixOf_mkId_self _ _ _
      rw [List.countP_eq_length.mpr this, List.length_range]
    have hgid : (assignId a i).1 = mkId a.project_code c (m + 1) := by
      rw [assignId_fst, hcomp, hcnt]
    have hfresh : (assignId a i).1 ∉ keys a.registry := by
      rw [hgid, hkeys]
      intro hmem
      obtain ⟨j, hj, hje⟩ := List.mem_map.mp hmem
      rw [List.mem_range] at hj
      have := (mkId_inj (compRange_dashFree c hc) (compRange_dashFree c hc) hje).2
      omega
    obtain ⟨v, hreg⟩ := assignId_registry_eq a i hfresh
    have hkeys' : keys (assignId a i).2.registry
        = (List.range (m + 1)).map
            (fun j => mkId (assignId a i).2.project_code c (j + 1)) := by
      rw [hreg, keys_append_single, hkeys, hgid, assignId_project_code, List.range_succ]
      simp
    have hall' : ∀ i' ∈ is, getComponentCode i'.labels = c :=
      fun i' h => hall i' (List.mem_cons_of_mem _ h)
    have hrec := ih (assignId a i).2 c (m + 1) hc hall' hkeys'
    show (assignId a i).1 :: (assignAll (assignId a i).2 is).1 = _
    rw [hgid, hrec, assignId_project_code, List.length_cons, List.range_succ_eq_map]
    simp only [List.map_cons, List.map_map]
    refine congrArg₂ _ (by rw [Nat.add_zero]) ?_
    apply List.map_congr_left
    intro k _
    show mkId a.project_code c (m + 1 + k + 1) = mkId a.project_code c (m + (k + 1) + 1)
    exact congrArg (mkId a.project_code c) (by omega)

/- ### Claim theorems. -/

/-- C1: over one registry lifetime that starts fresh, when every item assigned
through the one assigner resolves to the same component code (the project code
is fixed per assigner, so all resolved (project, component) pairs coincide),
the N returned global ids carry exactly the sequence numbers 1..N in
assignment order, each rendered by the width-3 zero-padding pad3. -/
theorem c1_sequence_numbers (repo_name : Str) (issues : List Issue) (c : Str)
    (hall : ∀ i ∈ issues, getComponentCode i.labels = c) :
    (assignAll (mkAssigner repo_name []) issues).1
      = (List.range issues.length).map
          (fun k => getProjectCode repo_name ++ '-' :: c ++ '-' :: pad3 (k + 1)) := by
  rcases issues with _ | ⟨i, is⟩
  · simp [assignAll]
  · have hc : c ∈ compRange := by
      have hm := getComponentCode_mem i.labels
      rwa [hall i (List.mem_cons_self i is)] at hm
    have h := assignAll_same_comp (i :: is) (mkAssigner repo_name []) c 0 hc hall
      (by simp [keys, mkAssigner])
    rw [h]
    apply List.map_congr_left
    intro k _
    show mkId (getProjectCode repo_name) c (0 + k + 1) = _
    rw [Nat.zero_add]
    rfl

theorem c1_sequence_numbers_witness :
    (∀ i ∈ [issueModbus, issueProtocol], getComponentCode i.labels = str "PROTO")
    ∧ (assignAll (mkAssigner (str "v-ics-le") []) [issueModbus, issueProtocol]).1
        = (List.range 2).map
            (fun k => getProjectCode (str "v-ics-le") ++ '-' :: str "PROTO"
              ++ '-' :: pad3 (k + 1)) :=
  ⟨by decide,
   c1_sequence_numbers (str "v-ics-le") [issueModbus, issueProtocol] (str "PROTO")
     (by decide)⟩

/-- C2: within one continuous registry lifetime started fresh (the registry is
loaded once, empty, and assign_id never deletes a record), the global ids
returned by any sequence of assign_id calls through one assigner are pairwise
distinct. -/
theorem c2_uniqueness (repo_name : Str) (issues : List Issue) :
    ((assignAll (mkAssigner repo_name []) issues).1).Nodup := by
  have h := assignAll_registry issues (mkAssigner repo_name []) (goodKeys_nil _)
  have hnodup := h.2.1.1
  rw [h.1] at hnodup
  simpa [keys, mkAssigner] using hnodup

/-- C7: source v-ics-le resolves to project VICS; labels modbus, testing
resolve to component PROTO; the first assignment in an empty registry returns
VICS-PROTO-001 and a second assignment with label protocol returns
VICS-PROTO-002. -/
theorem c7_scenario :
    getProjectCode (str "v-ics-le") = str "VICS"
    ∧ getComponentCode [str "modbus", str "testing"] = str "PROTO"
    ∧ (assignId (mkAssigner (str "v-ics-le") []) issueModbus).1 = str "VICS-PROTO-001"
    ∧ (assignId (assignId (mkAssigner (str "v-ics-le") []) issueModbus).2
        issueProtocol).1 = str "VICS-PROTO-002" := by
  refine ⟨by decide, by decide, by decide, by decide⟩

/-- C10: an item with an empty labels list resolves to component MISC (no
table entry matches and the empty joined label text matches no heuristic), so
assigning it over an empty registry returns projectCode-MISC-001. -/
theorem c10_empty_labels (repo_name : Str) (issue : Issue) (h : issue.labels = []) :
    getComponentCode issue.labels = str "MISC"
    ∧ (assignId (mkAssigner repo_name []) issue).1
        = getProjectCode repo_name ++ str "-MISC-001" := by
  constructor
  · rw [h]; decide
  · rw [assignId_fst, h]
    have hcc : getComponentCode ([] : List Str) = str "MISC" := by decide
    rw [hcc]
    show mkId (getProjectCode repo_name) (str "MISC") (0 + 1)
      = getProjectCode repo_name ++ str "-MISC-001"
    show (getProjectCode repo_name ++ '-' :: str "MISC") ++ '-' :: pad3 (0 + 1)
      = getProjectCode repo_name ++ str "-MISC-001"
    rw [List.append_assoc]
    exact congrArg (fun t => getProjectCode repo_name ++ t) (by decide)

theorem c10_empty_labels_witness :
    issueNoLabels.labels = []
    ∧ (getComponentCode issueNoLabels.labels = str "MISC"
       ∧ (assignId (mkAssigner (str "v-ics-le") []) issueNoLabels).1
           = getProjectCode (str "v-ics-le") ++ str "-MISC-001") :=
  ⟨by decide, c10_empty_labels (str "v-ics-le") issueNoLabels (by decide)⟩

/-- C8: _count_existing returns exactly the number of currently-held records
whose key starts with the given text as a literal string prefix (the
mathematical list-prefix relation), with no token-boundary awareness: a record
keyed VICS-RUST2-001 is counted under the prefix VICS-RUST. -/
theorem c8_count_by_prefix :
    (∀ (reg : Registry) (pre : Str),
       countExisting reg pre = ((keys reg).filter (fun k => decide (pre <+: k))).length)
    ∧ countExisting [(str "VICS-RUST2-001", recRust2)] (str "VICS-RUST") = 1 := by
  constructor
  · intro reg pre
    rw [countExisting_eq_keys, List.countP_eq_length_filter]
    congr 1
    apply List.filter_congr
    intro k _
    by_cases hp : pre <+: k
    · rw [decide_eq_true hp]
      exact List.isPrefixOf_iff_prefix.mpr hp
    · rw [decide_eq_false hp]
      cases hb : pre.isPrefixOf k with
      | false => rfl
      | true => exact absurd ( List.isPrefixOf_iff_prefix.mp hb) hp
  · decide

/-- C9: when the registry holds a record for the given global id,
update_github_number applied twice with the same value equals applying it
once: the second call returns the unchanged registry, reports the save as
triggered, and has no error path. -/
theorem c9_update_idempotent (reg : Registry) (gid : Str) (n : Int)
    (h : reg.any (fun kv => kv.1 == gid) = true) :
    updateGithubNumber (updateGithubNumber reg gid n).1 gid n
      = ((updateGithubNumber reg gid n).1, true) := by
  have hsnd : updateGithubNumber reg gid n
      = (reg.map (fun kv => if kv.1 == gid
          then (kv.1, { kv.2 with github_number := some n }) else kv), true) := by
    unfold updateGithubNumber
    rw [if_pos h]
  have hfst : ∀ kv : Str × RegRecord,
      ((if kv.1 == gid then (kv.1, { kv.2 with github_number := some n }) else kv).1 == gid)
        = (kv.1 == gid) := by
    intro kv
    by_cases hc : (kv.1 == gid) = true
    · rw [if_pos hc]
    · rw [if_neg hc]
  have hany2 : (reg.map (fun kv => if kv.1 == gid
      then (kv.1, { kv.2 with github_number := some n }) else kv)).any
        (fun kv => kv.1 == gid) = true := by
    rw [List.any_map]
    have hcomp : ((fun kv : Str × RegRecord => kv.1 == gid) ∘ fun kv =>
          if kv.1 == gid then (kv.1, { kv.2 with github_number := some n }) else kv)
        = fun kv : Str × RegRecord => kv.1 == gid := funext fun kv => hfst kv
    rw [hcomp]
    exact h
  have hff : ∀ kv : Str × RegRecord,
      (fun kv => if kv.1 == gid then (kv.1, { kv.2 with github_number := some n }) else kv)
        ((fun kv => if kv.1 == gid
          then (kv.1, { kv.2 with github_number := some n }) else kv) kv)
      = (if kv.1 == gid then (kv.1, { kv.2 with github_number := some n }) else kv) := by
    intro kv
    by_cases hc : (kv.1 == gid) = true
    · simp only [if_pos hc]
    · simp only [if_neg hc]
  rw [hsnd]
  show updateGithubNumber (reg.map (fun kv => if kv.1 == gid
      then (kv.1, { kv.2 with github_number := some n }) else kv)) gid n
    = (reg.map (fun kv => if kv.1 == gid
      then (kv.1, { kv.2 with github_number := some n }) else kv), true)
  unfold updateGithubNumber
  rw [if_pos hany2, List.map_map]
  refine congrArg (fun l => (l, true)) ?_
  apply List.map_congr_left
  intro kv _
  exact hff kv

theorem c9_update_idempotent_witness :
    gapRegistry.any (fun kv => kv.1 == str "VICS-PROTO-002") = true
    ∧ updateGithubNumber (updateGithubNumber gapRegistry (str "VICS-PROTO-002") 7).1
        (str "VICS-PROTO-002") 7
        = ((updateGithubNumber gapRegistry (str "VICS-PROTO-002") 7).1, true) :=
  ⟨by decide, c9_update_idempotent gapRegistry (str "VICS-PROTO-002") 7 (by decide)⟩

theorem lookupRec_map_update (gid : Str) (n : Int) : ∀ reg : Registry,
    lookupRec (reg.map (fun kv => if kv.1 == gid
        then (kv.1, { kv.2 with github_number := some n }) else kv)) gid
      = (lookupRec reg gid).map (fun r => { r with github_number := some n }) := by
  intro reg
  induction reg with
  | nil => rfl
  | cons kv t ih =>
    by_cases hc : (kv.1 == gid) = true
    · simp only [List.map_cons, if_pos hc]
      unfold lookupRec
      simp only [List.find?_cons, hc]
      rfl
    · have hcf : (kv.1 == gid) = false := Bool.eq_false_iff.mpr hc
      simp only [List.map_cons, if_neg hc]
      unfold lookupRec
      simp only [List.find?_cons, hcf]
      exact ih

/-- C4 counterexample: update_github_number on a global id absent from the
registry does not fail at all: it silently returns with the registry unchanged
and no persistence triggered, while the specified operation reports NotFound. -/
theorem c4_counterexample :
    updateGithubNumber [] (str "VICS-PROTO-001") 7 = ([], false)
    ∧ updateRemoteNumberSpec [] (str "VICS-PROTO-001") 7
        = Except.error RegError.notFound :=
  ⟨rfl, rfl⟩

/-- C4 amended: when the global id is absent, update_github_number is a silent
no-op (registry unchanged, no persistence, no error); when it is present, the
record's remote-number field is set and persistence is triggered. -/
theorem c4_amended (reg : Registry) (gid : Str) (n : Int) :
    (reg.any (fun kv => kv.1 == gid) = false → updateGithubNumber reg gid n = (reg, false))
    ∧ (reg.any (fun kv => kv.1 == gid) = true →
        (updateGithubNumber reg gid n).2 = true
        ∧ lookupRec (updateGithubNumber reg gid n).1 gid
            = (lookupRec reg gid).map (fun r => { r with github_number := some n })) := by
  constructor
  · intro habs
    unfold updateGithubNumber
    rw [if_neg (by rw [habs]; exact Bool.false_ne_true)]
  · intro hpres
    have hupd : updateGithubNumber reg gid n
        = (reg.map (fun kv => if kv.1 == gid
            then (kv.1, { kv.2 with github_number := some n }) else kv), true) := by
      unfold updateGithubNumber
      rw [if_pos hpres]
    rw [hupd]
    exact ⟨rfl, lookupRec_map_update gid n reg⟩

theorem c4_amended_witness :
    ([] : Registry).any (fun kv => kv.1 == str "VICS-PROTO-001") = false
    ∧ updateGithubNumber [] (str "VICS-PROTO-001") 7 = ([], false)
    ∧ gapRegistry.any (fun kv => kv.1 == str "VICS-PROTO-002") = true
    ∧ ((updateGithubNumber gapRegistry (str "VICS-PROTO-002") 7).2 = true
       ∧ lookupRec (updateGithubNumber gapRegistry (str "VICS-PROTO-002") 7).1
           (str "VICS-PROTO-002")
          = (lookupRec gapRegistry (str "VICS-PROTO-002")).map
              (fun r => { r with github_number := some 7 })) :=
  ⟨by decide,
   (c4_amended [] (str "VICS-PROTO-001") 7).1 (by decide),
   by decide,
   (c4_amended gapRegistry (str "VICS-PROTO-002") 7).2 (by decide)⟩

theorem keys_dictReplace (k : Str) (v : RegRecord) (reg : Registry)
    (h : reg.any (fun kv => kv.1 == k) = true) :
    keys (dictInsert reg k v) = keys reg := by
  unfold dictInsert
  rw [if_pos h]
  unfold keys
  rw [List.map_map]
  apply List.map_congr_left
  intro kv _
  show (if kv.1 == k then ((k, v) : Str × RegRecord) else kv).1 = kv.1
  by_cases hc : (kv.1 == k) = true
  · rw [if_pos hc]
    exact (beq_iff_eq.mp hc).symm
  · rw [if_neg hc]

theorem lookupRec_dictReplace (k : Str) (v : RegRecord) : ∀ reg : Registry,
    reg.any (fun kv => kv.1 == k) = true →
    lookupRec (dictInsert reg k v) k = some v := by
  have hmap : ∀ reg : Registry, reg.any (fun kv => kv.1 == k) = true →
      lookupRec (reg.map (fun kv => if kv.1 == k then (k, v) else kv)) k = some v := by
    intro reg
    induction reg with
    | nil => intro habs; simp at habs
    | cons kv t ih =>
      intro h
      by_cases hc : (kv.1 == k) = true
      · simp only [List.map_cons, if_pos hc]
        unfold lookupRec
        simp only [List.find?_cons, beq_self_eq_true]
        rfl
      · have hcf : (kv.1 == k) = false := Bool.eq_false_iff.mpr hc
        have ht : t.any (fun kv => kv.1 == k) = true := by
          rw [List.any_cons, hcf, Bool.false_or] at h
          exact h
        simp only [List.map_cons, if_neg hc]
        unfold lookupRec
        simp only [List.find?_cons, hcf]
        exact ih ht
  intro reg h
  unfold dictInsert
  rw [if_pos h]
  exact hmap reg h

/-- C3 counterexample: over the registry holding only the key VICS-PROTO-002
(a gap state, sequence 002 present but 001 absent), assign_id computes that
same already-present id and the dict write silently replaces the stored
record: the old record is gone, the key set is unchanged, and no DuplicateId
failure occurs anywhere. -/
theorem c3_counterexample :
    (assignId (mkAssigner (str "v-ics-le") gapRegistry) issueModbus).1
      = str "VICS-PROTO-002"
    ∧ (lookupRec gapRegistry (str "VICS-PROTO-002")).map (fun r => r.title)
        = some (str "old record")
    ∧ (lookupRec (assignId (mkAssigner (str "v-ics-le") gapRegistry) issueModbus).2.registry
        (str "VICS-PROTO-002")).map (fun r => r.title) = some (str "Modbus TCP server")
    ∧ keys (assignId (mkAssigner (str "v-ics-le") gapRegistry) issueModbus).2.registry
        = [str "VICS-PROTO-002"] := by
  refine ⟨by decide, by decide, by decide, by decide⟩

/-- C3 amended: inserting a record whose key is already present silently
replaces the stored record in place: the key sequence is unchanged and the key
now maps to the new record; the code has no DuplicateId guard and never
fails. -/
theorem c3_amended (reg : Registry) (k : Str) (v : RegRecord)
    (h : reg.any (fun kv => kv.1 == k) = true) :
    keys (dictInsert reg k v) = keys reg ∧ lookupRec (dictInsert reg k v) k = some v :=
  ⟨keys_dictReplace k v reg h, lookupRec_dictReplace k v reg h⟩

theorem c3_amended_witness :
    gapRegistry.any (fun kv => kv.1 == str "VICS-PROTO-002") = true
    ∧ (keys (dictInsert gapRegistry (str "VICS-PROTO-002") recRust2) = keys gapRegistry
       ∧ lookupRec (dictInsert gapRegistry (str "VICS-PROTO-002") recRust2)
           (str "VICS-PROTO-002") = some recRust2) :=
  ⟨by decide, c3_amended gapRegistry (str "VICS-PROTO-002") recRust2 (by decide)⟩

/-- C5: component resolution walks the labels in their given order after
normalizing each one (lowercase, trimmed) and returns the table code of the
first label present in the static table; the input rust, networking resolves
to RUST (the code mapped for rust), not NET (the code mapped for networking);
with no table match the concatenated lowercase label text is run through the
fixed ordered substring heuristics, and with no match at all the result is
MISC. -/
theorem c5_component_resolution :
    (∀ labels : List Str, getComponentCode labels = resolveComponentCodeSpec labels)
    ∧ getComponentCode [str "rust", str "networking"] = str "RUST"
    ∧ lookupTable COMPONENT_MAP (str "rust") = some (str "RUST")
    ∧ lookupTable COMPONENT_MAP (str "networking") = some (str "NET")
    ∧ getComponentCode [str "protocol design"] = str "PROTO"
    ∧ getComponentCode [str "unheard-of"] = str "MISC" := by
  refine ⟨?_, by decide, by decide, by decide, by decide, by decide⟩
  intro labels
  unfold getComponentCode resolveComponentCodeSpec
  rw [List.findSome?_map]
  rfl

theorem splitOnChar_of_not_contains (c : Char) : ∀ s : Str,
    s.contains c = false → splitOnChar c s = [s] := by
  intro s
  induction s with
  | nil => intro _; rfl
  | cons x xs ih =>
    intro h
    rw [List.contains_cons] at h
    have h1 : (c == x) = false := by
      cases hcx : (c == x) with
      | false => rfl
      | true => rw [hcx, Bool.true_or] at h; exact absurd h (by simp)
    have h2 : xs.contains c = false := by
      rw [h1, Bool.false_or] at h
      exact h
    have hxc : ¬(x = c) := by
      intro he
      rw [he] at h1
      simp at h1
    unfold splitOnChar
    rw [ih h2]
    show (if x = c then [] :: xs :: ([] : List Str) else (x :: xs) :: []) = [x :: xs]
    rw [if_neg hxc]

/-- The Bool substring test of the embedding coincides with the mathematical
infix-of-list relation, grounding the substring wording of the spec. -/
theorem substrB_correct : ∀ n h : Str, substrB n h = true ↔ n <:+: h := by
  intro n h
  induction h with
  | nil =>
    cases n with
    | nil => simp [substrB]
    | cons c t => simp [substrB]
  | cons c t ih =>
    simp only [substrB, Bool.or_eq_true, List.isPrefixOf_iff_prefix, ih,
      List.infix_cons_iff]

/-- C6: project resolution keeps only the trailing path segment after any
owner/ prefix, returns the table code on an exact match, otherwise the code of
the first table entry (in table iteration order) whose key is a substring of
the segment or of which the segment is a substring (substrB being exactly the
substring relation), and otherwise the MISC sentinel; totally-unknown-repo
yields MISC, the constructor emits the warning for it, and no exception is
thrown (every function involved is total). -/
theorem c6_project_resolution :
    (∀ repo : Str, getProjectCode repo = resolveProjectCodeSpec repo)
    ∧ (∀ n h : Str, substrB n h = true ↔ n <:+: h)
    ∧ getProjectCode (str "totally-unknown-repo") = str "MISC"
    ∧ miscWarningEmitted (mkAssigner (str "totally-unknown-repo") []) = true
    ∧ getProjectCode (str "owner/v-ics-le") = str "VICS" := by
  refine ⟨?_, substrB_correct, by decide, by decide, by decide⟩
  intro repo
  unfold getProjectCode resolveProjectCodeSpec trailingSegment
  by_cases h : repo.contains '/' = true
  · rw [if_pos h]
  · rw [if_neg h]
    have hf : repo.contains '/' = false := Bool.eq_false_iff.mpr h
    rw [splitOnChar_of_not_contains '/' repo hf]
    rfl

